import Mathlib

/-!
Shallow embedding of the core of `tools/wii_disc_converter/rpx_inject.py`
(SNES/NES ROM injector for Wii U Virtual Console RPX containers).

Byte buffers are modelled as `List Nat`; every function below is a direct
transcription of the corresponding Python function, with Python's
`bytes.find` modelled by `findSub`, slices by `drop`/`take`, in-place
`struct.pack_into` writes by `List.set`, and the `None` results of the
fallible operations by `Option`/`Except`.
-/

namespace RpxInject

/-- Console family selected on the command line (`system` argument). -/
inductive ConsoleKind where
  | snes
  | nes
deriving DecidableEq

/-- SNES memory-mapping layout, as returned by `detect_snes_rom_type`. -/
inductive RomType where
  | lorom
  | hirom
deriving DecidableEq

/-- The two failure modes of `inject_rom` (the Python code returns `None`
for both, with distinct error logs distinguishing them). -/
inductive InjectError where
  | payloadTooLarge
  | offsetOutOfBounds
deriving DecidableEq

/-- Read a byte of a buffer (0 past the end; all in-range uses below are
bounds-checked by the functions themselves, as in the source). -/
def byteAt (l : List Nat) (i : Nat) : Nat :=
  l.getD i 0

/-- `SNES_LOROM_HEADER = 0x7FC0`. -/
def SNES_LOROM_HEADER : Nat := 0x7FC0

/-- `SNES_HIROM_HEADER = 0xFFC0`. -/
def SNES_HIROM_HEADER : Nat := 0xFFC0

/-- `WUP_SIGNATURE = b'WUP-'`. -/
def WUP_SIGNATURE : List Nat := [0x57, 0x55, 0x50, 0x2D]

/-- `SNES_TITLE_OFFSET = 0x00`. -/
def SNES_TITLE_OFFSET : Nat := 0x00

/-- `SNES_CHECKSUM_COMP_OFFSET = 0x1C`. -/
def SNES_CHECKSUM_COMP_OFFSET : Nat := 0x1C

/-- `SNES_CHECKSUM_OFFSET = 0x1E`. -/
def SNES_CHECKSUM_OFFSET : Nat := 0x1E

/-- Python `hay.find(pat)`: lowest index at which `pat` occurs as a
contiguous sub-list of `hay` (`none` for Python's `-1`). -/
def findSub (hay pat : List Nat) : Option Nat :=
  match hay with
  | [] => if pat.isPrefixOf ([] : List Nat) then some 0 else none
  | a :: t =>
    if pat.isPrefixOf (a :: t) then some 0
    else (findSub t pat).map (fun i => i + 1)

/-- `strip_smc_header`: drop a 512-byte SMC wrapper when
`len(rom_data) % 1024 == 512`. -/
def strip_smc_header (rom_data : List Nat) : List Nat :=
  if rom_data.length % 1024 = 512 then rom_data.drop 512 else rom_data

/-- `validate_snes_header`: checksum/complement relation at the 32-byte
window, with the printable-title heuristic as fallback. -/
def validate_snes_header (data : List Nat) (offset : Nat) : Bool :=
  if offset + 0x20 > data.length then
    false
  else
    let header := (data.drop offset).take 0x20
    let checksum :=
      byteAt header SNES_CHECKSUM_OFFSET +
        256 * byteAt header (SNES_CHECKSUM_OFFSET + 1)
    let complement :=
      byteAt header SNES_CHECKSUM_COMP_OFFSET +
        256 * byteAt header (SNES_CHECKSUM_COMP_OFFSET + 1)
    if (checksum + complement) % 0x10000 = 0xFFFF then
      true
    else
      let title := (header.drop SNES_TITLE_OFFSET).take 21
      let printable :=
        title.countP (fun b => decide ((0x20 ≤ b ∧ b ≤ 0x7E) ∨ b = 0x00))
      decide (printable ≥ 15)

/-- `detect_snes_rom_type`: LoROM header location is tried first, then
HiROM; `none` when neither length guard plus validation succeeds. -/
def detect_snes_rom_type (rom_data : List Nat) : Option RomType :=
  if rom_data.length > SNES_LOROM_HEADER + 0x20 ∧
      validate_snes_header rom_data SNES_LOROM_HEADER = true then
    some RomType.lorom
  else if rom_data.length > SNES_HIROM_HEADER + 0x20 ∧
      validate_snes_header rom_data SNES_HIROM_HEADER = true then
    some RomType.hirom
  else
    none

/-- `find_wup_header`: position of `b'WUP-'` in the container. -/
def find_wup_header (rpx_data : List Nat) : Option Nat :=
  findSub rpx_data WUP_SIGNATURE

/-- The delta loop of strategy 1 of `find_rom_in_rpx`: probe
`wup_offset + delta` for each delta in order; the SNES branch accepts the
first candidate whose 0x10000-byte window classifies as a known layout. -/
def tryDeltas (rpx_data rom_data : List Nat) (system : ConsoleKind)
    (wup_offset : Nat) : List Nat → Option Nat
  | [] => none
  | delta :: rest =>
    let candidate := wup_offset + delta
    if candidate + rom_data.length ≤ rpx_data.length then
      if system = ConsoleKind.snes then
        match detect_snes_rom_type ((rpx_data.drop candidate).take 0x10000) with
        | some _ => some candidate
        | none => tryDeltas rpx_data rom_data system wup_offset rest
      else
        tryDeltas rpx_data rom_data system wup_offset rest
    else
      tryDeltas rpx_data rom_data system wup_offset rest

/-- Strategy 1 of `find_rom_in_rpx`: WUP-signature anchored probe. -/
def strategyWup (rpx_data rom_data : List Nat) (system : ConsoleKind) :
    Option Nat :=
  match find_wup_header rpx_data with
  | none => none
  | some w =>
    tryDeltas rpx_data rom_data system w [0x20, 0x30, 0x40, 0x100, 0x200]

/-- The stride-0x8000 scan loop of strategy 2 of `find_rom_in_rpx`
(Python `range(offset, stop, 0x8000)` with a header validation probe). -/
def scanHeadersAux (rpx_data : List Nat) (header_offset stop offset : Nat) :
    Option Nat :=
  if offset < stop then
    if validate_snes_header rpx_data (offset + header_offset) = true then
      some offset
    else
      scanHeadersAux rpx_data header_offset stop (offset + 0x8000)
  else
    none
termination_by stop - offset
decreasing_by omega

/-- Strategy 2 of `find_rom_in_rpx`: structural scan for a SNES header
signature (SNES only; strides of 0x8000 from 0x100000 up to
`len(rpx) - 0x10000`, the header offset taken from the ROM's own layout,
defaulting to LoROM). -/
def strategySnesHeader (rpx_data rom_data : List Nat) (system : ConsoleKind) :
    Option Nat :=
  if system = ConsoleKind.snes then
    let header_offset :=
      match detect_snes_rom_type rom_data with
      | some RomType.lorom => SNES_LOROM_HEADER
      | some RomType.hirom => SNES_HIROM_HEADER
      | none => SNES_LOROM_HEADER
    if rom_data.length > header_offset + 0x20 then
      scanHeadersAux rpx_data header_offset (rpx_data.length - 0x10000) 0x100000
    else
      none
  else
    none

/-- `find_rom_in_rpx`: the three locate strategies in fixed priority
order, the first success winning (strategy 3 is a raw content match on
the ROM's first 1024 bytes). -/
def find_rom_in_rpx (rpx_data rom_data : List Nat) (system : ConsoleKind) :
    Option Nat :=
  match strategyWup rpx_data rom_data system with
  | some offset => some offset
  | none =>
    match strategySnesHeader rpx_data rom_data system with
    | some offset => some offset
    | none => findSub rpx_data (rom_data.take 1024)

/-- The `size_map` dictionary of `get_original_rom_size`. -/
def size_map (size_byte : Nat) : Option Nat :=
  match size_byte with
  | 0x40 => some (4 * 1024 * 1024)
  | 0x20 => some (2 * 1024 * 1024)
  | 0x10 => some (1 * 1024 * 1024)
  | 0x08 => some (512 * 1024)
  | 0x04 => some (256 * 1024)
  | 0x02 => some (128 * 1024)
  | 0x01 => some (64 * 1024)
  | 0x00 => some (32 * 1024)
  | _ => none

/-- `get_original_rom_size`: size-code byte at `wup_offset + 0x0E`,
guarded by marker presence and the `wup_offset + 0x10 >= len` bound. -/
def get_original_rom_size (rpx_data : List Nat) (wup_offset : Option Nat) :
    Option Nat :=
  match wup_offset with
  | none => none
  | some w =>
    if w + 0x10 ≥ rpx_data.length then none
    else size_map (byteAt rpx_data (w + 0x0E))

/-- The `while original_size < rom_size: original_size *= 2` loop of
`inject_rom`, with the accumulator kept in exponent form (`2 ^ k` is the
loop's `original_size`, which starts at 1 and only ever doubles). -/
def roundUpPow2From (n k : Nat) : Nat :=
  if 2 ^ k < n then roundUpPow2From n (k + 1) else 2 ^ k
termination_by n - 2 ^ k
decreasing_by
  have h1 : 1 ≤ 2 ^ k := Nat.one_le_two_pow
  omega

/-- The default `original_size` of `inject_rom` when none is supplied:
1 doubled until it reaches the ROM size. -/
def roundUpPow2 (n : Nat) : Nat := roundUpPow2From n 0

/-- `inject_rom`: size check, 0xFF padding, bounds check, then the
`rpx_data[:offset] + rom_data + rpx_data[offset + original_size:]`
splice. -/
def inject_rom (rpx_data rom_data : List Nat) (offset : Nat)
    (original_size? : Option Nat) : Except InjectError (List Nat) :=
  let rom_size := rom_data.length
  let original_size :=
    match original_size? with
    | some s => s
    | none => roundUpPow2 rom_size
  if rom_size > original_size then
    Except.error InjectError.payloadTooLarge
  else
    let rom_padded :=
      if rom_size < original_size then
        rom_data ++ List.replicate (original_size - rom_size) 0xFF
      else
        rom_data
    if offset + original_size > rpx_data.length then
      Except.error InjectError.offsetOutOfBounds
    else
      Except.ok
        (rpx_data.take offset ++ rom_padded ++
          rpx_data.drop (offset + original_size))

/-- `inject_rom` with the two buffer values after the call made explicit:
none of the operations the Python body performs on `rpx_data` or the
caller's `rom_data` object writes into them (slicing copies, `+` builds a
new bytearray, the padded ROM is a rebinding of a local name), so both
components of the returned state are the incoming buffers. -/
def inject_romTrace (rpx_data rom_data : List Nat) (offset : Nat)
    (original_size? : Option Nat) :
    Except InjectError (List Nat) × List Nat × List Nat :=
  let rom_size := rom_data.length
  let original_size :=
    match original_size? with
    | some s => s
    | none => roundUpPow2 rom_size
  if rom_size > original_size then
    (Except.error InjectError.payloadTooLarge, rpx_data, rom_data)
  else
    let rom_padded :=
      if rom_size < original_size then
        rom_data ++ List.replicate (original_size - rom_size) 0xFF
      else
        rom_data
    if offset + original_size > rpx_data.length then
      (Except.error InjectError.offsetOutOfBounds, rpx_data, rom_data)
    else
      (Except.ok
        (rpx_data.take offset ++ rom_padded ++
          rpx_data.drop (offset + original_size)), rpx_data, rom_data)

/-- The `header_offset` local of `update_snes_header_checksum`. -/
def snesHeaderPos (offset : Nat) (rom_type : RomType) : Nat :=
  if rom_type = RomType.lorom then offset + SNES_LOROM_HEADER
  else offset + SNES_HIROM_HEADER

/-- `struct.pack_into('<H', data, pos, value)`: little-endian 16-bit
write as two byte stores. -/
def writeLE16 (data : List Nat) (pos value : Nat) : List Nat :=
  (data.set pos (value % 256)).set (pos + 1) (value / 256 % 256)

/-- `update_snes_header_checksum`: checksum is the byte sum from the
payload offset to the end of the buffer mod 2^16, its complement the
bitwise XOR with 0xFFFF; both are written little-endian into the header. -/
def update_snes_header_checksum (data : List Nat) (offset : Nat)
    (rom_type : RomType) : List Nat :=
  let header_offset := snesHeaderPos offset rom_type
  let checksum := (data.drop offset).sum % 0x10000
  let complement := checksum ^^^ 0xFFFF
  writeLE16
    (writeLE16 data (header_offset + SNES_CHECKSUM_COMP_OFFSET) complement)
    (header_offset + SNES_CHECKSUM_OFFSET) checksum

/-- Spec-side definition (§4.4): `pad(payload, originalSize, 0xFF)`. -/
def padTo (payload : List Nat) (original_size : Nat) : List Nat :=
  payload ++ List.replicate (original_size - payload.length) 0xFF

/-- Spec-side definition (§4.4): the spliced buffer
`container[0 .. offset) ++ pad(payload, size, 0xFF) ++ container[offset + size .. end)`. -/
def spliceSpec (container payload : List Nat) (offset original_size : Nat) :
    List Nat :=
  container.take offset ++ padTo payload original_size ++
    container.drop (offset + original_size)

/-- Spec-side definition: the ROM's first `pat.length` bytes occur
byte-for-byte in `hay` at offset `i`. -/
def occursAt (hay pat : List Nat) (i : Nat) : Prop :=
  i + pat.length ≤ hay.length ∧ (hay.drop i).take pat.length = pat

/-! ### Helper lemmas: byte reads -/

theorem byteAt_eq (l : List Nat) (i : Nat) : byteAt l i = l[i]?.getD 0 := by
  simp [byteAt, List.getD_eq_getElem?_getD]

theorem byteAt_slice (l : List Nat) (off m i : Nat) (him : i < m) :
    byteAt ((l.drop off).take m) i = byteAt l (off + i) := by
  rw [byteAt_eq, byteAt_eq, List.getElem?_take, if_pos him, List.getElem?_drop]

theorem byteAt_replicate_zero (n i : Nat) :
    byteAt (List.replicate n 0) i = 0 := by
  rw [byteAt_eq, List.getElem?_replicate]
  by_cases h : i < n <;> simp [h]

theorem length_writeLE16 (l : List Nat) (pos v : Nat) :
    (writeLE16 l pos v).length = l.length := by
  simp [writeLE16]

theorem byteAt_writeLE16_lo (l : List Nat) (pos v : Nat)
    (h : pos + 1 < l.length) :
    byteAt (writeLE16 l pos v) pos = v % 256 := by
  rw [writeLE16, byteAt_eq, List.getElem?_set_ne (by omega),
    List.getElem?_set_self (by omega)]
  rfl

theorem byteAt_writeLE16_hi (l : List Nat) (pos v : Nat)
    (h : pos + 1 < l.length) :
    byteAt (writeLE16 l pos v) (pos + 1) = v / 256 % 256 := by
  rw [writeLE16, byteAt_eq,
    List.getElem?_set_self (by simpa using h)]
  rfl

theorem byteAt_writeLE16_other (l : List Nat) (pos v q : Nat)
    (h1 : q ≠ pos) (h2 : q ≠ pos + 1) :
    byteAt (writeLE16 l pos v) q = byteAt l q := by
  rw [writeLE16, byteAt_eq, List.getElem?_set_ne (by omega),
    List.getElem?_set_ne (by omega), byteAt_eq]

/-! ### Helper lemmas: checksum/complement algebra -/

theorem xor_mask : ∀ (n c : Nat), c < 2 ^ n → c ^^^ (2 ^ n - 1) = (2 ^ n - 1) - c := by
  intro n
  induction n with
  | zero =>
    intro c hc
    have hc0 : c = 0 := by omega
    subst hc0
    rfl
  | succ n ih =>
    intro c hc
    have hpow : 2 ^ (n + 1) = 2 ^ n * 2 := Nat.pow_succ ..
    have hone : 1 ≤ 2 ^ n := Nat.one_le_two_pow
    have hq : c / 2 < 2 ^ n := by omega
    have hcbit : c = Nat.bit (decide (c % 2 = 1)) (c / 2) := by
      rw [Nat.bit_val]
      rcases Nat.mod_two_eq_zero_or_one c with h | h <;> simp [h] <;> omega
    have hmask : 2 ^ (n + 1) - 1 = Nat.bit true (2 ^ n - 1) := by
      rw [Nat.bit_val]
      simp [Bool.toNat]
      omega
    rw [hcbit, hmask, Nat.xor_bit, ih _ hq]
    have hd : c / 2 ≤ 2 ^ n - 1 := by omega
    cases hb : decide (c % 2 = 1) <;>
      simp [Nat.bit_val, Bool.toNat] <;> omega

theorem checksum_complement_algebra (c : Nat) (h : c < 65536) :
    (c + (c ^^^ 65535)) % 65536 = 65535 := by
  have h1 : (65535 : Nat) = 2 ^ 16 - 1 := by norm_num
  have h2 : c ^^^ 65535 = 65535 - c := by
    rw [h1]
    exact xor_mask 16 c (by omega)
  omega

theorem xor_ffff_lt (c : Nat) (h : c < 65536) : c ^^^ 65535 < 65536 := by
  have h1 : (65536 : Nat) = 2 ^ 16 := by norm_num
  rw [h1]
  exact Nat.xor_lt_two_pow (by omega) (by omega)

/-! ### Helper lemmas: header validation on all-zero windows -/

theorem validate_replicate_zero (n off : Nat) (h : off + 0x20 ≤ n) :
    validate_snes_header (List.replicate n 0) off = true := by
  rw [validate_snes_header]
  rw [if_neg (by rw [List.length_replicate]; omega)]
  have hdr : ((List.replicate n 0).drop off).take 0x20 = List.replicate 0x20 (0 : Nat) := by
    rw [List.drop_replicate, List.take_replicate]
    congr 1
    omega
  rw [hdr]
  rw [if_neg (by simp only [byteAt_replicate_zero]; norm_num)]
  simp only [SNES_TITLE_OFFSET, List.drop_zero, List.take_replicate,
    List.countP_replicate]
  norm_num

theorem detect_replicate_zero (n : Nat) (h1 : 0x7FE0 < n) (h2 : n ≤ 0xFFE0) :
    detect_snes_rom_type (List.replicate n 0) = some RomType.lorom := by
  rw [detect_snes_rom_type]
  rw [if_pos]
  constructor
  · rw [List.length_replicate, SNES_LOROM_HEADER]
    omega
  · exact validate_replicate_zero n SNES_LOROM_HEADER (by rw [SNES_LOROM_HEADER]; omega)

/-! ### Helper lemmas: the checksum repair write, unfolded -/

theorem update_checksum_eq (data : List Nat) (offset : Nat) (rt : RomType) :
    update_snes_header_checksum data offset rt =
      writeLE16
        (writeLE16 data (snesHeaderPos offset rt + 0x1C)
          (((data.drop offset).sum % 0x10000) ^^^ 0xFFFF))
        (snesHeaderPos offset rt + 0x1E)
        ((data.drop offset).sum % 0x10000) := rfl

theorem length_update_checksum (data : List Nat) (offset : Nat) (rt : RomType) :
    (update_snes_header_checksum data offset rt).length = data.length := by
  rw [update_checksum_eq, length_writeLE16, length_writeLE16]

/-- Claim C2: after `update_snes_header_checksum` runs on a buffer whose
32-byte header window at the layout's header position lies within the
buffer, `validate_snes_header` at that position returns true via the
checksum-algebra branch: the two little-endian 16-bit fields just written
satisfy `(checksum + complement) % 65536 = 0xFFFF`, where
`complement = checksum ^^^ 0xFFFF`. -/
theorem repair_then_validate (data : List Nat) (offset : Nat) (rt : RomType)
    (hfit : snesHeaderPos offset rt + 0x20 ≤ data.length) :
    validate_snes_header (update_snes_header_checksum data offset rt)
      (snesHeaderPos offset rt) = true ∧
    byteAt (update_snes_header_checksum data offset rt)
        (snesHeaderPos offset rt + 0x1C) +
      256 * byteAt (update_snes_header_checksum data offset rt)
        (snesHeaderPos offset rt + 0x1D) =
      (byteAt (update_snes_header_checksum data offset rt)
          (snesHeaderPos offset rt + 0x1E) +
        256 * byteAt (update_snes_header_checksum data offset rt)
          (snesHeaderPos offset rt + 0x1F)) ^^^ 0xFFFF ∧
    (byteAt (update_snes_header_checksum data offset rt)
        (snesHeaderPos offset rt + 0x1E) +
      256 * byteAt (update_snes_header_checksum data offset rt)
        (snesHeaderPos offset rt + 0x1F) +
      (byteAt (update_snes_header_checksum data offset rt)
          (snesHeaderPos offset rt + 0x1C) +
        256 * byteAt (update_snes_header_checksum data offset rt)
          (snesHeaderPos offset rt + 0x1D))) % 0x10000 = 0xFFFF := by
  set hp := snesHeaderPos offset rt with hhp
  set c := (data.drop offset).sum % 0x10000 with hcdef
  have hc : c < 65536 := Nat.mod_lt _ (by norm_num)
  set m := c ^^^ 0xFFFF with hmdef
  have hm : m < 65536 := xor_ffff_lt c hc
  have hupd : update_snes_header_checksum data offset rt
      = writeLE16 (writeLE16 data (hp + 0x1C) m) (hp + 0x1E) c :=
    update_checksum_eq data offset rt
  have hlen1 : (writeLE16 data (hp + 0x1C) m).length = data.length :=
    length_writeLE16 ..
  have hr1E : byteAt (update_snes_header_checksum data offset rt) (hp + 0x1E)
      = c % 256 := by
    rw [hupd]
    exact byteAt_writeLE16_lo _ _ _ (by omega)
  have hr1F : byteAt (update_snes_header_checksum data offset rt) (hp + 0x1F)
      = c / 256 % 256 := by
    rw [hupd]
    have e : hp + 0x1F = (hp + 0x1E) + 1 := by omega
    rw [e]
    exact byteAt_writeLE16_hi _ _ _ (by omega)
  have hr1C : byteAt (update_snes_header_checksum data offset rt) (hp + 0x1C)
      = m % 256 := by
    rw [hupd, byteAt_writeLE16_other _ _ _ _ (by omega) (by omega)]
    exact byteAt_writeLE16_lo _ _ _ (by omega)
  have hr1D : byteAt (update_snes_header_checksum data offset rt) (hp + 0x1D)
      = m / 256 % 256 := by
    rw [hupd, byteAt_writeLE16_other _ _ _ _ (by omega) (by omega)]
    have e : hp + 0x1D = (hp + 0x1C) + 1 := by omega
    rw [e]
    exact byteAt_writeLE16_hi _ _ _ (by omega)
  have hcsum : byteAt (update_snes_header_checksum data offset rt) (hp + 0x1E) +
      256 * byteAt (update_snes_header_checksum data offset rt) (hp + 0x1F)
      = c := by
    rw [hr1E, hr1F]
    omega
  have hcomp : byteAt (update_snes_header_checksum data offset rt) (hp + 0x1C) +
      256 * byteAt (update_snes_header_checksum data offset rt) (hp + 0x1D)
      = m := by
    rw [hr1C, hr1D]
    omega
  have hlenU : (update_snes_header_checksum data offset rt).length
      = data.length := length_update_checksum ..
  refine ⟨?_, ?_, ?_⟩
  · rw [validate_snes_header]
    rw [if_neg (by omega)]
    simp only [SNES_CHECKSUM_OFFSET, SNES_CHECKSUM_COMP_OFFSET]
    rw [byteAt_slice _ _ _ _ (by norm_num), byteAt_slice _ _ _ _ (by norm_num),
      byteAt_slice _ _ _ _ (by norm_num), byteAt_slice _ _ _ _ (by norm_num)]
    rw [if_pos]
    show (_ + _) % 65536 = 65535
    rw [show (0x1E : Nat) + 1 = 0x1F from rfl, hcsum]
    rw [show (0x1C : Nat) + 1 = 0x1D from rfl, hcomp]
    rw [hmdef]
    exact checksum_complement_algebra c hc
  · rw [hcsum, hcomp]
  · rw [hcsum, hcomp, hmdef]
    exact checksum_complement_algebra c hc

/-- Witness for `repair_then_validate` at a concrete all-zero buffer of
0x7FE0 bytes with the LoROM layout and payload offset 0. -/
theorem repair_then_validate_witness :
    snesHeaderPos 0 RomType.lorom + 0x20 ≤
      (List.replicate 0x7FE0 (0 : Nat)).length ∧
    validate_snes_header
      (update_snes_header_checksum (List.replicate 0x7FE0 0) 0 RomType.lorom)
      (snesHeaderPos 0 RomType.lorom) = true := by
  have h : snesHeaderPos 0 RomType.lorom + 0x20 ≤
      (List.replicate 0x7FE0 (0 : Nat)).length := by
    norm_num [snesHeaderPos, SNES_LOROM_HEADER]
  exact ⟨h, (repair_then_validate (List.replicate 0x7FE0 0) 0 RomType.lorom h).1⟩

/-! ### Helper lemmas: padding and splice bytes -/

theorem padded_eq_padTo (rom : List Nat) (os : Nat) (h : rom.length ≤ os) :
    (if rom.length < os then
      rom ++ List.replicate (os - rom.length) 0xFF
    else rom) = padTo rom os := by
  by_cases hlt : rom.length < os
  · rw [if_pos hlt, padTo]
  · have he : rom.length = os := by omega
    rw [if_neg hlt, padTo, he, Nat.sub_self, List.replicate_zero, List.append_nil]

theorem length_padTo (rom : List Nat) (os : Nat) (h : rom.length ≤ os) :
    (padTo rom os).length = os := by
  rw [padTo, List.length_append, List.length_replicate]
  omega

theorem length_spliceSpec (rpx rom : List Nat) (offset os : Nat)
    (hsize : rom.length ≤ os) (hbounds : offset + os ≤ rpx.length) :
    (spliceSpec rpx rom offset os).length = rpx.length := by
  rw [spliceSpec, List.length_append, List.length_append,
    length_padTo rom os hsize, List.length_take, List.length_drop]
  omega

theorem byteAt_spliceSpec_left (rpx rom : List Nat) (offset os i : Nat)
    (hsize : rom.length ≤ os) (hbounds : offset + os ≤ rpx.length)
    (hi : i < offset) :
    byteAt (spliceSpec rpx rom offset os) i = byteAt rpx i := by
  have htl : (rpx.take offset).length = offset := by
    rw [List.length_take]
    omega
  rw [spliceSpec, List.append_assoc, byteAt_eq,
    List.getElem?_append, if_pos (by omega), List.getElem?_take,
    if_pos hi, byteAt_eq]

theorem byteAt_spliceSpec_window (rpx rom : List Nat) (offset os i : Nat)
    (hsize : rom.length ≤ os) (hbounds : offset + os ≤ rpx.length)
    (hi : i < os) :
    byteAt (spliceSpec rpx rom offset os) (offset + i)
      = byteAt (padTo rom os) i := by
  have htl : (rpx.take offset).length = offset := by
    rw [List.length_take]
    omega
  have hpl : (padTo rom os).length = os := length_padTo rom os hsize
  rw [spliceSpec, List.append_assoc, byteAt_eq,
    List.getElem?_append_right (by omega), htl, Nat.add_sub_cancel_left,
    List.getElem?_append, if_pos (by omega), byteAt_eq]

theorem byteAt_spliceSpec_right (rpx rom : List Nat) (offset os i : Nat)
    (hsize : rom.length ≤ os) (hbounds : offset + os ≤ rpx.length)
    (hi : offset + os ≤ i) :
    byteAt (spliceSpec rpx rom offset os) i = byteAt rpx i := by
  have htl : (rpx.take offset).length = offset := by
    rw [List.length_take]
    omega
  have hpl : (padTo rom os).length = os := length_padTo rom os hsize
  rw [spliceSpec, List.append_assoc, byteAt_eq,
    List.getElem?_append_right (by omega), htl,
    List.getElem?_append_right (by omega), hpl,
    List.getElem?_drop, byteAt_eq]
  congr 2
  omega

/-- Claim C1: for every container, payload, offset and originalSize accepted
by `inject_rom` (`payload.length ≤ originalSize` and
`offset + originalSize ≤ container.length`), the returned buffer is exactly
`container[0 .. offset) ++ pad(payload, originalSize, 0xFF) ++
container[offset + originalSize .. end)`: the spliced window holds the
0xFF-right-padded payload, every byte outside the window equals the
corresponding container byte, and the result length equals the container
length. -/
theorem inject_splice_correct (rpx rom : List Nat) (offset os : Nat)
    (hsize : rom.length ≤ os) (hbounds : offset + os ≤ rpx.length) :
    inject_rom rpx rom offset (some os)
      = Except.ok (spliceSpec rpx rom offset os) ∧
    (spliceSpec rpx rom offset os).length = rpx.length ∧
    (∀ i, i < os →
      byteAt (spliceSpec rpx rom offset os) (offset + i)
        = byteAt (padTo rom os) i) ∧
    (∀ i, i < offset →
      byteAt (spliceSpec rpx rom offset os) i = byteAt rpx i) ∧
    (∀ i, offset + os ≤ i →
      byteAt (spliceSpec rpx rom offset os) i = byteAt rpx i) := by
  refine ⟨?_, length_spliceSpec rpx rom offset os hsize hbounds,
    fun i hi => byteAt_spliceSpec_window rpx rom offset os i hsize hbounds hi,
    fun i hi => byteAt_spliceSpec_left rpx rom offset os i hsize hbounds hi,
    fun i hi => byteAt_spliceSpec_right rpx rom offset os i hsize hbounds hi⟩
  rw [inject_rom]
  simp only
  rw [if_neg (by omega), if_neg (by omega), padded_eq_padTo rom os hsize]
  rfl

/-- Witness for `inject_splice_correct` at a concrete container and
payload. -/
theorem inject_splice_correct_witness :
    [9].length ≤ 2 ∧ 1 + 2 ≤ [1, 2, 3, 4, 5].length ∧
    inject_rom [1, 2, 3, 4, 5] [9] 1 (some 2)
      = Except.ok (spliceSpec [1, 2, 3, 4, 5] [9] 1 2) ∧
    spliceSpec [1, 2, 3, 4, 5] [9] 1 2 = [1, 9, 0xFF, 4, 5] :=
  ⟨by decide, by decide,
    (inject_splice_correct [1, 2, 3, 4, 5] [9] 1 2 (by decide) (by decide)).1,
    by decide⟩

/-- Claim C3: `inject_rom` fails exactly when the payload exceeds the
reserved size (`payloadTooLarge`) or the window exceeds the container
(`offsetOutOfBounds`); in every other case it returns a buffer; and an
oversized payload always yields `payloadTooLarge`, regardless of the
offset. -/
theorem inject_error_cases (rpx rom : List Nat) (offset os : Nat) :
    (rom.length > os →
      inject_rom rpx rom offset (some os)
        = Except.error InjectError.payloadTooLarge) ∧
    (rom.length ≤ os → offset + os > rpx.length →
      inject_rom rpx rom offset (some os)
        = Except.error InjectError.offsetOutOfBounds) ∧
    (rom.length ≤ os → offset + os ≤ rpx.length →
      ∃ buf, inject_rom rpx rom offset (some os) = Except.ok buf) ∧
    (∀ e, inject_rom rpx rom offset (some os) = Except.error e →
      rom.length > os ∨ offset + os > rpx.length) := by
  refine ⟨?_, ?_, ?_, ?_⟩
  · intro h
    rw [inject_rom]
    simp only
    rw [if_pos (by omega)]
  · intro h1 h2
    rw [inject_rom]
    simp only
    rw [if_neg (by omega), if_pos (by omega)]
  · intro h1 h2
    rw [inject_rom]
    simp only
    rw [if_neg (by omega), if_neg (by omega)]
    exact ⟨_, rfl⟩
  · intro e he
    by_cases h1 : rom.length > os
    · exact Or.inl h1
    · right
      by_cases h2 : offset + os > rpx.length
      · exact h2
      · exfalso
        rw [inject_rom] at he
        simp only at he
        rw [if_neg (by omega), if_neg (by omega)] at he
        exact Except.noConfusion he

/-- Witness for `inject_error_cases`: an oversized payload with an
out-of-bounds offset still fails as `payloadTooLarge`; a fitting payload
with a bad offset fails as `offsetOutOfBounds`; an accepted call returns a
buffer. -/
theorem inject_error_cases_witness :
    inject_rom [] [7] 5 (some 0) = Except.error InjectError.payloadTooLarge ∧
    inject_rom [] [] 1 (some 0) = Except.error InjectError.offsetOutOfBounds ∧
    ∃ buf, inject_rom [5] [] 0 (some 0) = Except.ok buf :=
  ⟨(inject_error_cases [] [7] 5 0).1 (by decide),
    (inject_error_cases [] [] 1 0).2.1 (by decide) (by decide),
    (inject_error_cases [5] [] 0 0).2.2.1 (by decide) (by decide)⟩

/-- Claim C7: `strip_smc_header` is idempotent, and concretely it drops the
first 512 bytes exactly when the length is 512 mod 1024, otherwise
returning the input unchanged. -/
theorem strip_idempotent (x : List Nat) :
    strip_smc_header (strip_smc_header x) = strip_smc_header x ∧
    (x.length % 1024 = 512 → strip_smc_header x = x.drop 512) ∧
    (x.length % 1024 ≠ 512 → strip_smc_header x = x) := by
  by_cases h : x.length % 1024 = 512
  · have h1 : strip_smc_header x = x.drop 512 := by
      rw [strip_smc_header, if_pos h]
    have h2 : strip_smc_header (x.drop 512) = x.drop 512 := by
      rw [strip_smc_header, List.length_drop, if_neg (by omega)]
    exact ⟨by rw [h1, h2], fun _ => h1, fun hn => absurd h hn⟩
  · have h1 : strip_smc_header x = x := by
      rw [strip_smc_header, if_neg h]
    exact ⟨by rw [h1, h1], fun hc => absurd hc h, fun _ => h1⟩

/-- Witness for `strip_idempotent`: a 512-byte buffer satisfies the modulus
test and is stripped to the empty remainder. -/
theorem strip_idempotent_witness :
    (List.replicate 512 (7 : Nat)).length % 1024 = 512 ∧
    strip_smc_header (List.replicate 512 7)
      = (List.replicate 512 (7 : Nat)).drop 512 :=
  ⟨by rw [List.length_replicate],
    (strip_idempotent (List.replicate 512 7)).2.1 (by rw [List.length_replicate])⟩

/-- A 15-byte container whose size-code byte (at offset 0x0E) is 0x40 but
which is too short for the `wup_offset + 0x10 >= len` bounds guard of
`get_original_rom_size`. -/
def c6Container : List Nat := List.replicate 14 0 ++ [0x40]

/-- Counterexample to claim C6 as stated: here the marker is found (at
offset 0), the byte at `0 + 0x0E` is 0x40 which has a table entry
(4194304), and yet `get_original_rom_size` returns `none`, because the
code also requires `wup_offset + 0x10 < len(container)`. -/
theorem size_lookup_cex :
    get_original_rom_size c6Container (some 0) = none ∧
    byteAt c6Container 0x0E = 0x40 ∧
    size_map 0x40 = some 4194304 := by decide

/-- Claim C6 (amended): `get_original_rom_size` returns `none` exactly when
the marker was not found, or the container is too short
(`markerOffset + 0x10 ≥ length`), or the size-code byte at
`markerOffset + 0x0E` has no table entry; within bounds it returns the
table entry for that byte (0x40 mapping to 4194304). -/
theorem size_lookup_spec (rpx : List Nat) (w : Nat) :
    get_original_rom_size rpx none = none ∧
    (w + 0x10 ≥ rpx.length → get_original_rom_size rpx (some w) = none) ∧
    (w + 0x10 < rpx.length →
      get_original_rom_size rpx (some w) = size_map (byteAt rpx (w + 0x0E))) ∧
    size_map 0x40 = some 4194304 := by
  refine ⟨rfl, fun h => ?_, fun h => ?_, rfl⟩
  · rw [get_original_rom_size, if_pos h]
  · rw [get_original_rom_size, if_neg (by omega)]

/-- Witness for `size_lookup_spec`: a 17-byte all-zero container passes the
bounds guard at marker offset 0 and resolves the 0x00 size code to 32 KB. -/
theorem size_lookup_spec_witness :
    0 + 0x10 < (List.replicate 17 (0 : Nat)).length ∧
    get_original_rom_size (List.replicate 17 0) (some 0)
      = size_map (byteAt (List.replicate 17 0) (0 + 0x0E)) :=
  ⟨by simp, (size_lookup_spec (List.replicate 17 0) 0).2.2.1 (by simp)⟩

/-- A ROM buffer of exactly 0x7FE0 bytes: long enough for
`validate_snes_header` at 0x7FC0 (the window fits exactly) but not strictly
longer than 0x7FE0 as `detect_snes_rom_type` requires. -/
def c5Rom : List Nat := List.replicate 0x7FE0 0

/-- Counterexample to claim C5 as stated: `validate_snes_header` at 0x7FC0
is true (all-zero title passes the printable heuristic), yet
`detect_snes_rom_type` returns `none` rather than LoROM, because its length
guard demands strictly more than 0x7FE0 bytes. -/
theorem classify_cex :
    validate_snes_header c5Rom 0x7FC0 = true ∧
    detect_snes_rom_type c5Rom = none := by
  constructor
  · exact validate_replicate_zero 0x7FE0 0x7FC0 (by norm_num)
  · have hA : ¬((List.replicate 0x7FE0 (0 : Nat)).length >
        SNES_LOROM_HEADER + 0x20 ∧
        validate_snes_header (List.replicate 0x7FE0 0) SNES_LOROM_HEADER
          = true) := by
      rintro ⟨h1, -⟩
      rw [List.length_replicate, SNES_LOROM_HEADER] at h1
      omega
    have hB : ¬((List.replicate 0x7FE0 (0 : Nat)).length >
        SNES_HIROM_HEADER + 0x20 ∧
        validate_snes_header (List.replicate 0x7FE0 0) SNES_HIROM_HEADER
          = true) := by
      rintro ⟨h1, -⟩
      rw [List.length_replicate, SNES_HIROM_HEADER] at h1
      omega
    rw [c5Rom, detect_snes_rom_type, if_neg hA, if_neg hB]

/-- Claim C5 (amended): `detect_snes_rom_type` returns LoROM whenever the
buffer is strictly longer than 0x7FE0 bytes and the LoROM header validates;
otherwise HiROM whenever the buffer is strictly longer than 0xFFE0 bytes
and the HiROM header validates; otherwise `none`. -/
theorem classify_layout_spec (rom : List Nat) :
    (rom.length > SNES_LOROM_HEADER + 0x20 →
      validate_snes_header rom SNES_LOROM_HEADER = true →
      detect_snes_rom_type rom = some RomType.lorom) ∧
    (¬(rom.length > SNES_LOROM_HEADER + 0x20 ∧
        validate_snes_header rom SNES_LOROM_HEADER = true) →
      rom.length > SNES_HIROM_HEADER + 0x20 →
      validate_snes_header rom SNES_HIROM_HEADER = true →
      detect_snes_rom_type rom = some RomType.hirom) ∧
    (¬(rom.length > SNES_LOROM_HEADER + 0x20 ∧
        validate_snes_header rom SNES_LOROM_HEADER = true) →
      ¬(rom.length > SNES_HIROM_HEADER + 0x20 ∧
        validate_snes_header rom SNES_HIROM_HEADER = true) →
      detect_snes_rom_type rom = none) := by
  refine ⟨fun h1 h2 => ?_, fun hn h1 h2 => ?_, fun hn1 hn2 => ?_⟩
  · rw [detect_snes_rom_type, if_pos ⟨h1, h2⟩]
  · rw [detect_snes_rom_type, if_neg hn, if_pos ⟨h1, h2⟩]
  · rw [detect_snes_rom_type, if_neg hn1, if_neg hn2]

/-- Witness for `classify_layout_spec`: an all-zero buffer one byte longer
than 0x7FE0 classifies as LoROM. -/
theorem classify_layout_spec_witness :
    detect_snes_rom_type (List.replicate 0x7FE1 0) = some RomType.lorom :=
  (classify_layout_spec (List.replicate 0x7FE1 0)).1
    (by rw [List.length_replicate, SNES_LOROM_HEADER]; omega)
    (validate_replicate_zero 0x7FE1 SNES_LOROM_HEADER
      (by rw [SNES_LOROM_HEADER]; omega))

/-! ### Helper lemmas: the doubling loop computes the least power of two -/

theorem roundUpPow2From_spec : ∀ (fuel n k : Nat), n - 2 ^ k ≤ fuel →
    (∃ j, k ≤ j ∧ roundUpPow2From n k = 2 ^ j) ∧
    n ≤ roundUpPow2From n k ∧
    (∀ j, k ≤ j → n ≤ 2 ^ j → roundUpPow2From n k ≤ 2 ^ j) := by
  intro fuel
  induction fuel with
  | zero =>
    intro n k h
    rw [roundUpPow2From, if_neg (by omega)]
    exact ⟨⟨k, Nat.le_refl k, rfl⟩, by omega,
      fun j hkj _ => Nat.pow_le_pow_right (by norm_num) hkj⟩
  | succ m ih =>
    intro n k h
    by_cases hc : 2 ^ k < n
    · rw [roundUpPow2From, if_pos hc]
      have hone : 1 ≤ 2 ^ k := Nat.one_le_two_pow
      have hpow : 2 ^ (k + 1) = 2 ^ k * 2 := Nat.pow_succ ..
      obtain ⟨⟨j, hj1, hj2⟩, hle, hmin⟩ := ih n (k + 1) (by omega)
      refine ⟨⟨j, by omega, hj2⟩, hle, fun j2 hkj2 hnj2 => ?_⟩
      have hklt : k < j2 := by
        have hlt : 2 ^ k < 2 ^ j2 := by omega
        exact (Nat.pow_lt_pow_iff_right (by norm_num)).mp hlt
      exact hmin j2 (by omega) hnj2
    · rw [roundUpPow2From, if_neg hc]
      exact ⟨⟨k, Nat.le_refl k, rfl⟩, by omega,
        fun j hkj _ => Nat.pow_le_pow_right (by norm_num) hkj⟩

theorem roundUpPow2_spec (n : Nat) :
    (∃ j, roundUpPow2 n = 2 ^ j) ∧ n ≤ roundUpPow2 n ∧
    ∀ j, n ≤ 2 ^ j → roundUpPow2 n ≤ 2 ^ j := by
  have h0 : (2 : Nat) ^ 0 = 1 := rfl
  obtain ⟨⟨j, _, hj⟩, hle, hmin⟩ := roundUpPow2From_spec n n 0 (by omega)
  exact ⟨⟨j, hj⟩, hle, fun j2 h2 => hmin j2 (Nat.zero_le j2) h2⟩

theorem roundUpPow2_of_pow (m : Nat) : roundUpPow2 (2 ^ m) = 2 ^ m := by
  obtain ⟨⟨j, hj⟩, hle, hmin⟩ := roundUpPow2_spec (2 ^ m)
  exact Nat.le_antisymm (hmin m (Nat.le_refl _)) hle

/-- Claim C8: when `inject_rom` is called with the original size unknown,
the reserved size it substitutes is the smallest power of two greater than
or equal to the payload length; consequently a payload whose length is
already a power of two is injected with zero padding bytes. -/
theorem inject_default_size (rpx rom : List Nat) (offset : Nat) :
    (∃ j, roundUpPow2 rom.length = 2 ^ j) ∧
    rom.length ≤ roundUpPow2 rom.length ∧
    (∀ j, rom.length ≤ 2 ^ j → roundUpPow2 rom.length ≤ 2 ^ j) ∧
    inject_rom rpx rom offset none
      = inject_rom rpx rom offset (some (roundUpPow2 rom.length)) ∧
    ((∃ m, rom.length = 2 ^ m) → offset + rom.length ≤ rpx.length →
      inject_rom rpx rom offset none
        = Except.ok (rpx.take offset ++ rom ++
            rpx.drop (offset + rom.length))) := by
  obtain ⟨hpow, hle, hmin⟩ := roundUpPow2_spec rom.length
  have h4 : inject_rom rpx rom offset none
      = inject_rom rpx rom offset (some (roundUpPow2 rom.length)) := rfl
  refine ⟨hpow, hle, hmin, h4, ?_⟩
  rintro ⟨m, hm⟩ hb
  have hsz : roundUpPow2 rom.length = rom.length := by
    rw [hm, roundUpPow2_of_pow]
  rw [h4, hsz, inject_rom]
  simp only
  rw [if_neg (by omega), if_neg (by omega), if_neg (by omega)]

/-- Witness for `inject_default_size`: a two-byte payload (a power of two)
is injected with zero padding. -/
theorem inject_default_size_witness :
    (∃ m, ([5, 6] : List Nat).length = 2 ^ m) ∧
    0 + ([5, 6] : List Nat).length ≤ ([1, 2, 3] : List Nat).length ∧
    inject_rom [1, 2, 3] [5, 6] 0 none
      = Except.ok (([1, 2, 3] : List Nat).take 0 ++ [5, 6] ++
          ([1, 2, 3] : List Nat).drop (0 + ([5, 6] : List Nat).length)) :=
  ⟨⟨1, rfl⟩, by decide,
    (inject_default_size [1, 2, 3] [5, 6] 0).2.2.2.2 ⟨1, rfl⟩ (by decide)⟩

/-! ### Helper lemma: the traced splicer never writes into its buffers -/

theorem inject_trace_eq (rpx rom : List Nat) (offset : Nat)
    (os? : Option Nat) :
    inject_romTrace rpx rom offset os?
      = (inject_rom rpx rom offset os?, rpx, rom) := by
  cases os? with
  | none =>
    simp only [inject_romTrace, inject_rom]
    by_cases h1 : rom.length > roundUpPow2 rom.length
    · simp [h1]
    · by_cases h2 : offset + roundUpPow2 rom.length > rpx.length
      · simp [h1, h2]
      · simp [h1, h2]
  | some s =>
    simp only [inject_romTrace, inject_rom]
    by_cases h1 : rom.length > s
    · simp [h1]
    · by_cases h2 : offset + s > rpx.length
      · simp [h1, h2]
      · simp [h1, h2]

/-- Claim C9: `inject_rom` never mutates the container (or payload) buffer
it receives: every operation the body performs on them is a read or builds
a new buffer, so the buffer state after the call equals the state before
it, on success and on both failures alike, and the returned value is the
pure function of the inputs. -/
theorem inject_frame (rpx rom : List Nat) (offset : Nat) (os? : Option Nat) :
    (inject_romTrace rpx rom offset os?).2.1 = rpx ∧
    (inject_romTrace rpx rom offset os?).2.2 = rom ∧
    (inject_romTrace rpx rom offset os?).1 = inject_rom rpx rom offset os? := by
  rw [inject_trace_eq]
  exact ⟨rfl, rfl, rfl⟩

/-! ### Helper lemmas: `findSub` returns the lowest occurrence -/

theorem isPrefixOf_iff (p : List Nat) : ∀ l : List Nat,
    p.isPrefixOf l = true ↔ p.length ≤ l.length ∧ l.take p.length = p := by
  induction p with
  | nil =>
    intro l
    simp [List.isPrefixOf]
  | cons a p ih =>
    intro l
    cases l with
    | nil => simp [List.isPrefixOf]
    | cons b t =>
      rw [List.isPrefixOf_cons₂]
      simp only [Bool.and_eq_true, beq_iff_eq, ih t, List.length_cons,
        List.take_succ_cons]
      constructor
      · rintro ⟨hab, hlen, htake⟩
        subst hab
        exact ⟨by omega, by rw [htake]⟩
      · rintro ⟨hlen, htake⟩
        injection htake with hb ht
        exact ⟨hb.symm, by omega, ht⟩

theorem occursAt_zero (l pat : List Nat) :
    occursAt l pat 0 ↔ pat.isPrefixOf l = true := by
  rw [occursAt, isPrefixOf_iff, List.drop_zero, Nat.zero_add]

theorem occursAt_succ (a : Nat) (t pat : List Nat) (i : Nat) :
    occursAt (a :: t) pat (i + 1) ↔ occursAt t pat i := by
  rw [occursAt, occursAt, List.drop_succ_cons, List.length_cons]
  constructor
  · rintro ⟨h1, h2⟩
    exact ⟨by omega, h2⟩
  · rintro ⟨h1, h2⟩
    exact ⟨by omega, h2⟩

theorem findSub_some_spec : ∀ (hay pat : List Nat) (i : Nat),
    findSub hay pat = some i →
    occursAt hay pat i ∧ ∀ j, j < i → ¬ occursAt hay pat j := by
  intro hay
  induction hay with
  | nil =>
    intro pat i h
    rw [findSub] at h
    by_cases hp : pat.isPrefixOf ([] : List Nat) = true
    · rw [if_pos hp] at h
      injection h with h0
      subst h0
      exact ⟨(occursAt_zero _ _).mpr hp, fun j hj => absurd hj (by omega)⟩
    · rw [if_neg hp] at h
      exact absurd h (by simp)
  | cons a t ih =>
    intro pat i h
    rw [findSub] at h
    by_cases hp : pat.isPrefixOf (a :: t) = true
    · rw [if_pos hp] at h
      injection h with h0
      subst h0
      exact ⟨(occursAt_zero _ _).mpr hp, fun j hj => absurd hj (by omega)⟩
    · rw [if_neg hp] at h
      obtain ⟨i0, hfind, hi⟩ := Option.map_eq_some'.mp h
      obtain ⟨hocc, hmin⟩ := ih pat i0 hfind
      subst hi
      refine ⟨(occursAt_succ a t pat i0).mpr hocc, fun j hj => ?_⟩
      cases j with
      | zero =>
        intro hc
        exact hp ((occursAt_zero _ _).mp hc)
      | succ j0 =>
        intro hc
        exact hmin j0 (by omega) ((occursAt_succ a t pat j0).mp hc)

theorem findSub_none_spec : ∀ (hay pat : List Nat),
    findSub hay pat = none → ∀ i, ¬ occursAt hay pat i := by
  intro hay
  induction hay with
  | nil =>
    intro pat h i
    rw [findSub] at h
    by_cases hp : pat.isPrefixOf ([] : List Nat) = true
    · rw [if_pos hp] at h
      exact absurd h (by simp)
    · rcases i with _ | i0
      · exact fun hc => hp ((occursAt_zero _ _).mp hc)
      · rintro ⟨h1, -⟩
        simp only [List.length_nil] at h1
        omega
  | cons a t ih =>
    intro pat h i
    rw [findSub] at h
    by_cases hp : pat.isPrefixOf (a :: t) = true
    · rw [if_pos hp] at h
      exact absurd h (by simp)
    · rw [if_neg hp] at h
      have hnone : findSub t pat = none := by
        cases hf : findSub t pat with
        | none => rfl
        | some v =>
          rw [hf] at h
          exact absurd h (by simp)
      rcases i with _ | i0
      · exact fun hc => hp ((occursAt_zero _ _).mp hc)
      · exact fun hc => ih pat hnone i0 ((occursAt_succ a t pat i0).mp hc)

/-! ### Helper lemmas: the first two strategies never fire for NES -/

theorem tryDeltas_nes (rpx rom : List Nat) (w : Nat) : ∀ ds,
    tryDeltas rpx rom ConsoleKind.nes w ds = none := by
  intro ds
  induction ds with
  | nil => rfl
  | cons d rest ih =>
    rw [tryDeltas]
    by_cases hc : w + d + rom.length ≤ rpx.length
    · rw [if_pos hc, if_neg (by decide : ¬(ConsoleKind.nes = ConsoleKind.snes))]
      exact ih
    · rw [if_neg hc]
      exact ih

theorem strategyWup_nes (rpx rom : List Nat) :
    strategyWup rpx rom ConsoleKind.nes = none := by
  rw [strategyWup]
  cases hf : find_wup_header rpx with
  | none => rfl
  | some w => exact tryDeltas_nes rpx rom w _

theorem strategySnesHeader_nes (rpx rom : List Nat) :
    strategySnesHeader rpx rom ConsoleKind.nes = none := by
  rw [strategySnesHeader,
    if_neg (by decide : ¬(ConsoleKind.nes = ConsoleKind.snes))]

/-- Claim C10: for NES inputs, the signature-anchored probe and the
structural scan never return an offset, so the locator degenerates to the
content match: it returns exactly the lowest offset at which the
normalized ROM's first 1024 bytes occur byte-for-byte in the container,
and reports not-found exactly when there is no occurrence. -/
theorem nes_locate (rpx rom : List Nat) :
    strategyWup rpx rom ConsoleKind.nes = none ∧
    strategySnesHeader rpx rom ConsoleKind.nes = none ∧
    find_rom_in_rpx rpx rom ConsoleKind.nes = findSub rpx (rom.take 1024) ∧
    (∀ i, find_rom_in_rpx rpx rom ConsoleKind.nes = some i ↔
      (occursAt rpx (rom.take 1024) i ∧
        ∀ j, j < i → ¬ occursAt rpx (rom.take 1024) j)) ∧
    (find_rom_in_rpx rpx rom ConsoleKind.nes = none ↔
      ∀ i, ¬ occursAt rpx (rom.take 1024) i) := by
  have h1 := strategyWup_nes rpx rom
  have h2 := strategySnesHeader_nes rpx rom
  have h3 : find_rom_in_rpx rpx rom ConsoleKind.nes
      = findSub rpx (rom.take 1024) := by
    rw [find_rom_in_rpx, h1, h2]
  refine ⟨h1, h2, h3, fun i => ⟨?_, ?_⟩, ?_, ?_⟩
  · intro h
    rw [h3] at h
    exact findSub_some_spec rpx (rom.take 1024) i h
  · rintro ⟨hocc, hmin⟩
    rw [h3]
    cases hf : findSub rpx (rom.take 1024) with
    | none => exact absurd hocc (findSub_none_spec rpx _ hf i)
    | some i0 =>
      obtain ⟨hocc0, hmin0⟩ := findSub_some_spec rpx _ i0 hf
      have he : i0 = i := by
        rcases Nat.lt_trichotomy i0 i with hlt | heq | hgt
        · exact absurd hocc0 (hmin i0 hlt)
        · exact heq
        · exact absurd hocc (hmin0 i hgt)
      rw [he]
  · intro h i
    rw [h3] at h
    exact findSub_none_spec rpx _ h i
  · intro hall
    rw [h3]
    cases hf : findSub rpx (rom.take 1024) with
    | none => rfl
    | some i0 =>
      obtain ⟨hocc0, -⟩ := findSub_some_spec rpx _ i0 hf
      exact absurd hocc0 (hall i0)

/-- Claim C4: if the signature-anchored probe (strategy 1) succeeds at
offset `c`, the locator returns `c`; in particular, when the content-match
strategy (strategy 3) would succeed at a different offset, the locator
still returns the signature-anchored offset and never the content-match
one — the strategies are tried in fixed priority order with the first
success winning. -/
theorem locate_priority (rpx rom : List Nat) (sys : ConsoleKind) (c : Nat)
    (h : strategyWup rpx rom sys = some c) :
    find_rom_in_rpx rpx rom sys = some c ∧
    (∀ c3, findSub rpx (rom.take 1024) = some c3 → c3 ≠ c →
      find_rom_in_rpx rpx rom sys ≠ some c3) := by
  have h1 : find_rom_in_rpx rpx rom sys = some c := by
    rw [find_rom_in_rpx, h]
  refine ⟨h1, fun c3 _ hne hcontra => ?_⟩
  rw [h1] at hcontra
  injection hcontra with he
  exact hne he.symm

/-- A container for exercising strategy 1: the WUP signature at offset 0
followed by 0x8000 zero bytes (so the probe window at `0 + 0x20`
classifies as an all-zero LoROM). -/
def c4Container : List Nat := WUP_SIGNATURE ++ List.replicate 0x8000 0

/-- A 1024-byte all-zero replacement ROM for the strategy-priority
witness. -/
def c4Rom : List Nat := List.replicate 1024 0

theorem c4_find_wup : find_wup_header c4Container = some 0 := by
  rw [find_wup_header, c4Container]
  simp only [WUP_SIGNATURE, List.cons_append, List.nil_append]
  have hpre : ([0x57, 0x55, 0x50, 0x2D] : List Nat).isPrefixOf
      (0x57 :: 0x55 :: 0x50 :: 0x2D :: List.replicate 0x8000 0) = true := by
    rw [List.isPrefixOf_cons₂, List.isPrefixOf_cons₂, List.isPrefixOf_cons₂,
      List.isPrefixOf_cons₂, List.isPrefixOf]
    decide
  rw [findSub, if_pos hpre]

theorem c4_window :
    (c4Container.drop 32).take 0x10000 = List.replicate 0x7FE4 0 := by
  rw [c4Container]
  have h32 : (32 : Nat) = WUP_SIGNATURE.length + 28 := rfl
  rw [h32, List.drop_append, List.drop_replicate, List.take_replicate]
  congr 1

theorem c4_strategyWup :
    strategyWup c4Container c4Rom ConsoleKind.snes = some 0x20 := by
  rw [strategyWup, c4_find_wup]
  show tryDeltas c4Container c4Rom ConsoleKind.snes 0
    [0x20, 0x30, 0x40, 0x100, 0x200] = some 0x20
  rw [tryDeltas]
  rw [if_pos (by
    rw [c4Rom, List.length_replicate, c4Container, List.length_append,
      List.length_replicate]
    decide)]
  rw [if_pos rfl]
  simp only [Nat.zero_add]
  rw [c4_window, detect_replicate_zero 0x7FE4 (by norm_num) (by norm_num)]

/-- Witness for `locate_priority`: a crafted container where the
WUP-anchored probe succeeds at 0x20 and the locator returns exactly that
offset. -/
theorem locate_priority_witness :
    strategyWup c4Container c4Rom ConsoleKind.snes = some 0x20 ∧
    find_rom_in_rpx c4Container c4Rom ConsoleKind.snes = some 0x20 :=
  ⟨c4_strategyWup,
    (locate_priority c4Container c4Rom ConsoleKind.snes 0x20 c4_strategyWup).1⟩

end RpxInject
